import Mathlib

/-!
Verification development for the VFS core of the cozy-stack repository:
the directory/file entry model (`src/vfs/directory.go`), the local
LRU-backed path cache (`LocalCache`), and the rename/propagation
algorithm.  Go code is shallowly embedded: pure helpers become Lean
functions, the document store and byte-storage backend become explicit
state threaded through each operation, and the goroutine fan-out of
`bulkUpdateDocsPath` is represented by a fold that records one result
per spawned unit in spawn order (the store effects of the units commute
because each unit updates a distinct document).

Strings are modelled with Lean `String`; the Go standard-library
helpers used by the source (`path.Clean`, `path.Join`, `path.Dir`,
`path.IsAbs`, `strings.HasPrefix`, slicing) are re-implemented below
over character lists so that every definition evaluates inside the
kernel.  Go slices strings by byte; the embedding slices by character,
which agrees on the ASCII paths manipulated here.
-/

/-- Character-list test: `pfx` is an initial segment of `s`. Models Go
`strings.HasPrefix` (second argument is the candidate initial segment). -/
def listIsPre : List Char → List Char → Bool
  | [], _ => true
  | _ :: _, [] => false
  | a :: as, b :: bs => a == b && listIsPre as bs

/-- Go `strings.HasPrefix s pfx`. -/
def strStarts (s pfx : String) : Bool := listIsPre pfx.toList s.toList

/-- Character count of a string (Go `len` on the ASCII paths used here). -/
def strLen (s : String) : Nat := s.toList.length

/-- Go string slicing `s[n:]` (by character; equal to byte slicing on ASCII). -/
def strDrop (s : String) (n : Nat) : String := String.mk (s.toList.drop n)

/-- Split a character list on a separator, keeping empty segments,
like Go `strings.Split`. -/
def splitChars (sep : Char) : List Char → List (List Char)
  | [] => [[]]
  | c :: cs =>
    let r := splitChars sep cs
    if c == sep then [] :: r
    else
      match r with
      | g :: gs => (c :: g) :: gs
      | [] => [[c]]

/-- Split a string on a separator character. -/
def strSplit (s : String) (sep : Char) : List String :=
  (splitChars sep s.toList).map (fun l => String.mk l)

/-- Join segments with a separator string. -/
def joinSegs (sep : String) : List String → String
  | [] => ""
  | [a] => a
  | a :: b :: rest => a ++ sep ++ joinSegs sep (b :: rest)

/-- One step of lexical path cleaning: drop empty and `.` segments,
resolve `..` against the accumulator (which holds the cleaned segments
in reverse order), mirroring Go `path.Clean`'s element processing. -/
def cleanStep (rooted : Bool) (acc : List String) (seg : String) : List String :=
  if seg = "" ∨ seg = "." then acc
  else if seg = ".." then
    match acc with
    | [] => if rooted then [] else [".."]
    | a :: rest => if a = ".." then ".." :: a :: rest else rest
  else seg :: acc

/-- Go `path.Clean`: lexically shortest equivalent path. -/
def goPathClean (p : String) : String :=
  if p = "" then "."
  else
    let rooted := strStarts p "/"
    let segs := strSplit p '/'
    let acc := segs.foldl (cleanStep rooted) []
    let out := joinSegs "/" acc.reverse
    if rooted then "/" ++ out
    else if out = "" then "." else out

/-- Go `path.IsAbs`. -/
def goPathIsAbs (p : String) : Bool := strStarts p "/"

/-- Go `path.Join` on two elements: empty elements are dropped, the
rest joined with `/` and cleaned; all-empty input gives `""`. -/
def goPathJoin2 (a b : String) : String :=
  let elems := [a, b].filter (fun e => !(decide (e = "")))
  match elems with
  | [] => ""
  | l => goPathClean (joinSegs "/" l)

/-- Go `path.Dir`: everything up to (and including) the final
separator, cleaned; `"."` when there is no separator. -/
def goPathDir (p : String) : String :=
  goPathClean (String.mk (p.toList.reverse.dropWhile (fun c => !(c == '/'))).reverse)

/-! ## Entry model

`DirDoc` mirrors the persisted fields of the `DirDoc` struct of
`src/vfs/directory.go` (the transient `parent`/`files`/`dirs` pointers
are not persisted and are represented by explicit re-resolution through
the store, see `derivePath`).  The sibling `FileDoc` struct and the
`dirOrFile` decoding wrapper are declared in a repository file that is
not under src/; per the spec (§3) both variants share the Entry shape,
so they reuse the same record type.  Timestamps are opaque `Nat`s and
`time.Now()` is passed in as an explicit `now` argument. -/

structure DirDoc where
  type : String
  objID : String
  objRev : String
  name : String
  folderID : String
  createdAt : Nat
  updatedAt : Nat
  fullpath : String
  tags : List String
deriving DecidableEq, Repr

/-- Modelled from the spec: `FileDoc` (its Go source file is not under
src/) shares the common Entry shape of §3; only the shared fields are
used by the cache operations verified here. -/
abbrev FileDoc := DirDoc

/-- Modelled from the spec: `dirOrFile` is the store record before the
discriminator has been inspected. -/
abbrev dirOrFile := DirDoc

/-- Modelled from the spec: document-type constant for the files
collection (declared in a repository file not under src/; the value is
an opaque token). -/
def FsDocType : String := "io.cozy.files"

/-- Modelled from the spec: discriminator value for directories. -/
def DirType : String := "directory"

/-- Modelled from the spec: discriminator value for files. -/
def FileType : String := "file"

/-- Modelled from the spec: the distinguished root folder identifier. -/
def RootFolderID : String := "root"

/-- Modelled from the spec: `dirOrFile.refine()` splits a fetched
record on its discriminator, yielding the type tag plus the directory
or file view of the record. -/
def DirDoc.refine (r : dirOrFile) : String × Option DirDoc × Option FileDoc :=
  if r.type = FileType then (FileType, none, some r)
  else if r.type = DirType then (DirType, some r, none)
  else ("", none, none)

/-! ## Error model

One constructor per distinct error value the embedded code can
surface.  `updateFailed`/`createFailed` model injected store write
failures (network or backend errors of the document store); a failed
update names the document it was for, which is how distinct failed
units of the rename fan-out are told apart. -/

inductive VfsError where
  | notFound
  | parentDoesNotExist
  | notExist
  | exist
  | forbiddenDocMove
  | pathsNotAbsolute
  | wrongBaseDir
  | conflict
  | updateFailed (id : String)
  | createFailed
  | illegalFilename
  | depthExceeded
deriving DecidableEq, Repr

/-! ## Document store

The store (`couchdb` package boundary, §6 of the spec) holds a list of
records; `failing` lists document ids whose writes fail (injected
store-side failure), `createFails` injects failure of document
creation.  Reads are modelled as reliable.  `find` supports exactly the
mango selectors the source builds. -/

structure DB where
  docs : List DirDoc
  nextID : Nat
  failing : List String
  createFails : Bool
deriving DecidableEq, Repr

/-- Store read by id: `couchdb.GetDoc`. -/
def GetDoc (db : DB) (id : String) : Except VfsError DirDoc :=
  match db.docs.find? (fun d => decide (d.objID = id)) with
  | some r => .ok r
  | none => .error .notFound

/-- Revision token bump performed by the store on a successful write. -/
def bumpRev (r : String) : String := r ++ "+"

/-- Store create: `couchdb.CreateDoc` assigns a fresh id and revision. -/
def CreateDoc (db : DB) (r : DirDoc) : Except VfsError (DB × DirDoc) :=
  if db.createFails then .error .createFailed
  else
    let id := "doc" ++ String.mk (List.replicate db.nextID '*')
    let r2 := { r with objID := id, objRev := bumpRev "" }
    .ok ({ db with docs := db.docs ++ [r2], nextID := db.nextID + 1 }, r2)

/-- Store update: `couchdb.UpdateDoc` requires the current revision of
the document and bumps it on success. -/
def UpdateDoc (db : DB) (r : DirDoc) : Except VfsError DB :=
  if r.objID ∈ db.failing then .error (.updateFailed r.objID)
  else
    match db.docs.find? (fun d => decide (d.objID = r.objID)) with
    | none => .error .notFound
    | some stored =>
      if stored.objRev = r.objRev then
        .ok { db with
              docs := db.docs.map (fun d =>
                if d.objID = r.objID then { r with objRev := bumpRev r.objRev } else d) }
      else .error .conflict

/-- The mango selectors built by the source: equality on `path`,
equality on `folder_id`, prefix match on `path`, and the
folder-and-name-and-type conjunction used for file lookup by path. -/
inductive Selector where
  | eqPath (p : String)
  | eqFolderID (fid : String)
  | startWithPath (pfx : String)
  | fileByName (fid nm : String)
deriving DecidableEq, Repr

/-- Selector satisfaction on one record. -/
def Selector.sat : Selector → DirDoc → Bool
  | .eqPath p, r => decide (r.fullpath = p)
  | .eqFolderID f, r => decide (r.folderID = f)
  | .startWithPath s, r => strStarts r.fullpath s
  | .fileByName f n, r =>
      decide (r.folderID = f) && decide (r.name = n) && decide (r.type = FileType)

/-- Store query: `couchdb.FindDocs` with an optional result limit. -/
def FindDocs (db : DB) (sel : Selector) (lim : Option Nat) : List DirDoc :=
  let m := db.docs.filter sel.sat
  match lim with
  | some n => m.take n
  | none => m

/-! ## Byte storage backend

The `afero`-style filesystem handle of the Context (`c.fs`), §6 of the
spec: a set of existing paths with mkdir / remove / stat / rename. -/

structure FS where
  paths : List String
deriving DecidableEq, Repr

/-- Backend `Mkdir`: fails when the path exists or its parent does not. -/
def FS.mkdir (fs : FS) (p : String) : Except VfsError FS :=
  if p ∈ fs.paths then .error .exist
  else if goPathDir p ∈ fs.paths then .ok { paths := p :: fs.paths }
  else .error .notExist

/-- Backend `Remove` (the caller in `CreateDirectory` discards its
error, so the model simply drops the path). -/
def FS.remove (fs : FS) (p : String) : FS :=
  { paths := fs.paths.filter (fun q => !(decide (q = p))) }

/-- Backend `Stat`. -/
def FS.stat (fs : FS) (p : String) : Except VfsError Unit :=
  if p ∈ fs.paths then .ok () else .error .notExist

/-- Backend `Rename`: moves the path and its whole subtree. -/
def FS.rename (fs : FS) (o n : String) : Except VfsError FS :=
  if o ∈ fs.paths then
    .ok { paths := fs.paths.map (fun q =>
      if q = o then n
      else if strStarts q (o ++ "/") then n ++ strDrop q (strLen o)
      else q) }
  else .error .notExist

/-! ## Bounded LRU cache

Modelled from the spec: the `LRUCache` implementation itself is not
under src/ (only its caller `LocalCache` is).  Per §4.1 it is a
capacity-limited least-recently-used structure keyed by entry id:
`Get` promotes the entry to most-recently-used, an insertion beyond
capacity evicts the least-recently-used entry, and every eviction is
reported so the caller's `OnEvicted` callback can clean the secondary
index.  Entries are listed most-recent-first; the key type `LRUKey` is
the entry id string. -/

structure LRUCache where
  maxEntries : Nat
  entries : List (String × DirDoc)
deriving DecidableEq, Repr

/-- Pure lookup (no recency change): the value stored under a key. -/
def lruLookup (c : LRUCache) (k : String) : Option DirDoc :=
  (c.entries.find? (fun e => decide (e.1 = k))).map (fun e => e.2)

/-- Drop every entry stored under a key. -/
def lruErase (c : LRUCache) (k : String) : LRUCache :=
  { c with entries := c.entries.filter (fun e => !(decide (e.1 = k))) }

/-- Modelled from the spec: `LRUCache.Get` — a hit moves the entry to
the most-recently-used position. -/
def lruGet (c : LRUCache) (k : String) : Option DirDoc × LRUCache :=
  match lruLookup c k with
  | some v => (some v, { c with entries := (k, v) :: (lruErase c k).entries })
  | none => (none, c)

/-- Modelled from the spec: `LRUCache.Add` — insert (or refresh) the
entry at the most-recently-used position; when the insertion exceeds
`maxEntries` (a zero bound means unbounded) the least-recently-used
entries are evicted and returned for the eviction callback. -/
def lruAdd (c : LRUCache) (k : String) (v : DirDoc) :
    LRUCache × List (String × DirDoc) :=
  let l := (k, v) :: (lruErase c k).entries
  if 0 < c.maxEntries ∧ c.maxEntries < l.length then
    ({ c with entries := l.take c.maxEntries }, l.drop c.maxEntries)
  else ({ c with entries := l }, [])

/-- Modelled from the spec: `LRUCache.Remove` — drop the entry, also
reporting it to the eviction callback. -/
def lruRemove (c : LRUCache) (k : String) :
    LRUCache × List (String × DirDoc) :=
  (lruErase c k, c.entries.filter (fun e => decide (e.1 = k)))

/-- Modelled from the spec: `LRUCache.Len`. -/
def lruLen (c : LRUCache) : Nat := c.entries.length

/-! ## Association-list maps

The two secondary indices of `LocalCache` are Go maps
(`map[string]*string`); they are modelled as association lists with
map semantics (insert overwrites, lookup takes the binding). -/

/-- Map lookup. -/
def mapLookup (m : List (String × String)) (k : String) : Option String :=
  (m.find? (fun e => decide (e.1 = k))).map (fun e => e.2)

/-- Map deletion (Go `delete`). -/
def mapDelete (m : List (String × String)) (k : String) : List (String × String) :=
  m.filter (fun e => !(decide (e.1 = k)))

/-- Map insertion (Go `m[k] = v`). -/
def mapInsert (m : List (String × String)) (k v : String) : List (String × String) :=
  (k, v) :: mapDelete m k

/-! ## LocalCache (src/unnamed/part_002)

`LocalCache` pairs a bounded LRU cache with a secondary path index for
each entry kind: `pthd` maps a directory's `Fullpath` to its id, and
`pthf` maps the `(FolderID, Name)` composite produced by
`genFilePathID` to a file's id.  The per-kind mutexes guard the pairs
in the source; the sequential embedding needs no locks.  The eviction
callbacks installed by `NewLocalCache` delete the evicted record's
secondary binding; here the callback's effect is applied synchronously
to the index at every point the LRU reports an eviction, which is
exactly when the source invokes it. -/

structure LocalCache where
  lrud : LRUCache
  pthd : List (String × String)
  lruf : LRUCache
  pthf : List (String × String)
deriving DecidableEq, Repr

/-- `genFilePathID` of src/unnamed/part_002. -/
def genFilePathID (folderID nm : String) : String := folderID ++ "/" ++ nm

/-- Shared body of `touchDir`/`touchFile` (the spec, §9, calls for the
two secondary-index caches to be two instantiations of one generic
structure): look the key up (deleting the previous binding of a cached
older copy), add the record, apply the eviction callback — deleting
the secondary binding of every evicted record — and finally bind the
record's secondary key to its id. -/
def touchGeneric (skey : DirDoc → String) (lru : LRUCache)
    (idx : List (String × String)) (doc : DirDoc) :
    LRUCache × List (String × String) :=
  let key := doc.objID
  let idx1 :=
    match lruLookup lru key with
    | some olddoc => mapDelete idx (skey olddoc)
    | none => idx
  let lru1 := (lruGet lru key).2
  let (lru2, evicted) := lruAdd lru1 key doc
  let idx2 := evicted.foldl (fun m e => mapDelete m (skey e.2)) idx1
  (lru2, mapInsert idx2 (skey doc) doc.objID)

/-- `LocalCache.touchDir`: directory secondary key is `Fullpath`. -/
def LocalCache.touchDir (fc : LocalCache) (doc : DirDoc) : LocalCache :=
  let (l, m) := touchGeneric (fun d => d.fullpath) fc.lrud fc.pthd doc
  { fc with lrud := l, pthd := m }

/-- `LocalCache.touchFile`: file secondary key is `genFilePathID`. -/
def LocalCache.touchFile (fc : LocalCache) (doc : FileDoc) : LocalCache :=
  let (l, m) := touchGeneric (fun d => genFilePathID d.folderID d.name) fc.lruf fc.pthf doc
  { fc with lruf := l, pthf := m }

/-- `LocalCache.dirCachedByID` — the underlying `Get` promotes recency. -/
def LocalCache.dirCachedByID (fc : LocalCache) (fileID : String) :
    Option DirDoc × LocalCache :=
  match lruGet fc.lrud fileID with
  | (v, l) => (v, { fc with lrud := l })

/-- `LocalCache.fileCachedByID` — the underlying `Get` promotes recency. -/
def LocalCache.fileCachedByID (fc : LocalCache) (fileID : String) :
    Option FileDoc × LocalCache :=
  match lruGet fc.lruf fileID with
  | (v, l) => (v, { fc with lruf := l })

/-- `LocalCache.DirByID`: cache hit, else fetch from the store, map a
missing record to `ErrParentDoesNotExist` and a wrong discriminator to
`os.ErrNotExist`, and on success insert the record via `touchDir`. -/
def LocalCache.DirByID (fc : LocalCache) (db : DB) (fileID : String) :
    Except VfsError DirDoc × LocalCache :=
  match fc.dirCachedByID fileID with
  | (some doc, fc1) => (.ok doc, fc1)
  | (none, fc1) =>
    match GetDoc db fileID with
    | .error e =>
      (.error (if e = .notFound then .parentDoesNotExist else e), fc1)
    | .ok doc =>
      if doc.type ≠ DirType then (.error .notExist, fc1)
      else (.ok doc, fc1.touchDir doc)

/-- `LocalCache.FileByID`: cache hit, else fetch from the store and
validate the discriminator; the source returns the fetched record
without touching it into the file cache. -/
def LocalCache.FileByID (fc : LocalCache) (db : DB) (fileID : String) :
    Except VfsError FileDoc × LocalCache :=
  match fc.fileCachedByID fileID with
  | (some doc, fc1) => (.ok doc, fc1)
  | (none, fc1) =>
    match GetDoc db fileID with
    | .error e => (.error e, fc1)
    | .ok doc =>
      if doc.type ≠ FileType then (.error .notExist, fc1)
      else (.ok doc, fc1)

/-- One step of the `DirFiles` partition loop: refine the record and
dispatch on the discriminator, touching the appropriate cache.  The
`none` fallbacks mirror the source's reliance on `refine` returning
the matching view (they are unreachable for well-typed records). -/
def dirFilesStep (acc : List FileDoc × List DirDoc × LocalCache) (r : dirOrFile) :
    List FileDoc × List DirDoc × LocalCache :=
  match DirDoc.refine r with
  | (t, dOpt, fOpt) =>
    if t = FileType then
      match fOpt with
      | some f => (acc.1 ++ [f], acc.2.1, acc.2.2.touchFile f)
      | none => acc
    else if t = DirType then
      match dOpt with
      | some d => (acc.1, acc.2.1 ++ [d], acc.2.2.touchDir d)
      | none => acc
    else acc

/-- `LocalCache.DirFiles`: list the children of a directory — a store
query on `folder_id` with page size 10, partitioned by discriminator,
each result touched into its cache.  (The store read is modelled as
reliable, so the source's error return does not arise.) -/
def LocalCache.DirFiles (fc : LocalCache) (db : DB) (doc : DirDoc) :
    (List FileDoc × List DirDoc) × LocalCache :=
  let docs := FindDocs db (.eqFolderID doc.objID) (some 10)
  let r := docs.foldl dirFilesStep ([], [], fc)
  ((r.1, r.2.1), r.2.2)

/-- `LocalCache.Len` of src/unnamed/part_002, exactly as written there:
the directory cache's length is added to itself (`fc.lrud.Len() +
fc.lrud.Len()`); the file cache is not consulted. -/
def LocalCache.Len (fc : LocalCache) : Nat :=
  lruLen fc.lrud + lruLen fc.lrud

/-! ## Context and directory tree operations (src/vfs/directory.go)

The Context bundles the store handle, the backend handle and the path
cache for one tenant (its Go declaration is in a repository file not
under src/; the shape is modelled from §2 of the spec).  The directory
operations of src/vfs/directory.go use only `c.db` and `c.fs`.

Mutating operations additionally return the list of externally visible
events they performed, in order: `fsRename` for a backend rename and
`storeUpdate` for each `couchdb.UpdateDoc` call.  The trace is pure
instrumentation for the temporal claims; it changes no behaviour. -/

structure Context where
  db : DB
  fs : FS
  cache : LocalCache
deriving DecidableEq, Repr

inductive Ev where
  | fsRename (o n : String)
  | storeUpdate (id : String)
deriving DecidableEq, Repr

/-- Modelled from the spec: `getParentDir` (declared in a repository
file not under src/) resolves a parent directory by id, mapping a
missing record to `ParentMissing` and a non-directory to `NotExist`
(spec §4.2 derive-path, §7 taxonomy). -/
def getParentDir (db : DB) (folderID : String) : Except VfsError DirDoc :=
  match GetDoc db folderID with
  | .error _ => .error .parentDoesNotExist
  | .ok r => if r.type ≠ DirType then .error .notExist else .ok r

/-- `DirDoc.Path` with explicit fuel for the walk up the `FolderID`
chain: an already materialised `Fullpath` is returned as is, otherwise
the parent is resolved through the store and the paths joined.  The
source memoizes the result onto the record; the embedding is pure and
its callers re-apply the memoization where it is observable
(`CreateDirectory`, `ModifyDirMetadata`).  Exhausted fuel
(`depthExceeded`) models the source's non-termination on a cyclic
parent chain, which no well-formed store exhibits. -/
def derivePath (db : DB) : Nat → DirDoc → Except VfsError String
  | 0, _ => .error .depthExceeded
  | fuel + 1, d =>
    if d.fullpath ≠ "" then .ok d.fullpath
    else
      match getParentDir db d.folderID with
      | .error e => .error e
      | .ok parent =>
        match derivePath db fuel parent with
        | .error e => .error e
        | .ok pp => .ok (goPathJoin2 pp d.name)

/-- `DirDoc.Path`: fuel one more than the store size, enough for any
acyclic parent chain. -/
def DirDoc.Path (d : DirDoc) (db : DB) : Except VfsError String :=
  derivePath db (db.docs.length + 1) d

/-- Modelled from the spec: `checkFileName` (declared in a repository
file not under src/) rejects an empty name or a name containing the
path separator (spec §3, invariant 3). -/
def checkFileName (nm : String) : Option VfsError :=
  if nm = "" ∨ nm.toList.contains '/' then some .illegalFilename else none

/-- Modelled from the spec: `uniqueTags` (declared in a repository file
not under src/) de-duplicates the tag list (spec §3: tags are
de-duplicated on every construction, order insignificant); the first
occurrence is kept. -/
def uniqueTags (tags : List String) : List String :=
  tags.foldl (fun acc t => if t ∈ acc then acc else acc ++ [t]) []

/-- `NewDirDoc` of src/vfs/directory.go: validate the name, default an
empty folder id to the root folder id, de-duplicate the tags and build
the record with both timestamps at the current time.  The transient
`parent` argument of the source is dropped (it is never persisted and
the embedding re-resolves parents through the store). -/
def NewDirDoc (now : Nat) (nm folderID : String) (tags : List String) :
    Except VfsError DirDoc :=
  match checkFileName nm with
  | some e => .error e
  | none =>
    let folderID := if folderID = "" then RootFolderID else folderID
    let tags := uniqueTags tags
    .ok { type := DirType, objID := "", objRev := "", name := nm,
          folderID := folderID, createdAt := now, updatedAt := now,
          fullpath := "", tags := tags }

/-- `CreateDirectory` of src/vfs/directory.go: derive the path, create
it in the backend, then persist the record (which carries the path the
derivation memoized onto it); the deferred cleanup removes the backend
path again when the persist fails. -/
def CreateDirectory (c : Context) (doc : DirDoc) : Option VfsError × Context :=
  match doc.Path c.db with
  | .error e => (some e, c)
  | .ok nm =>
    match c.fs.mkdir nm with
    | .error e => (some e, c)
    | .ok fs1 =>
      match CreateDoc c.db { doc with fullpath := nm } with
      | .ok (db1, _) => (none, { c with fs := fs1, db := db1 })
      | .error e => (some e, { c with fs := fs1.remove nm })

/-- `DocPatch` of the source: each field optionally overridden. -/
structure DocPatch where
  name : Option String
  folderID : Option String
  tags : Option (List String)
  updatedAt : Option Nat
deriving DecidableEq, Repr

/-- The result of patch normalization: every field resolved. -/
structure NormPatch where
  name : String
  folderID : String
  tags : List String
  updatedAt : Nat
deriving DecidableEq, Repr

/-- Modelled from the spec: `normalizeDocPatch` (declared in a
repository file not under src/) applies a partial patch, each field
defaulting to the prior value of the record (spec §4.2
modify-metadata). -/
def normalizeDocPatch (olddoc : DirDoc) (patch : DocPatch) : NormPatch :=
  { name := patch.name.getD olddoc.name,
    folderID := patch.folderID.getD olddoc.folderID,
    tags := patch.tags.getD olddoc.tags,
    updatedAt := patch.updatedAt.getD olddoc.updatedAt }

/-- The patched replacement record built by `ModifyDirMetadata` before
any mutation: `NewDirDoc` on the normalized patch, then the old
record's id, revision and creation date (and the patch's update time)
copied over.  (The source copies these fields right after its parent
lookup; the fields play no part in that lookup, so the embedding
orders the copy first.) -/
def mkNewDirDoc (olddoc : DirDoc) (patch : DocPatch) (now : Nat) :
    Except VfsError DirDoc :=
  let p := normalizeDocPatch olddoc patch
  match NewDirDoc now p.name p.folderID p.tags with
  | .error e => .error e
  | .ok nd =>
    .ok { nd with
          objID := olddoc.objID, objRev := olddoc.objRev,
          createdAt := olddoc.createdAt, updatedAt := p.updatedAt }

/-- `safeRenameDirectory` of src/vfs/directory.go: clean both paths,
require them absolute, reject a move of a directory below itself with
`ErrForbiddenDocMove`, reject an occupied target with `os.ErrExist`,
then rename in the backend. -/
def safeRenameDirectory (c : Context) (oldpath newpath : String) :
    Option VfsError × Context × List Ev :=
  let np := goPathClean newpath
  let op := goPathClean oldpath
  if ¬ (goPathIsAbs np = true ∧ goPathIsAbs op = true) then
    (some .pathsNotAbsolute, c, [])
  else if strStarts np (op ++ "/") then (some .forbiddenDocMove, c, [])
  else
    match c.fs.stat np with
    | .ok _ => (some .exist, c, [])
    | .error e =>
      if e ≠ .notExist then (some e, c, [])
      else
        match c.fs.rename op np with
        | .ok fs1 => (none, { c with fs := fs1 }, [.fsRename op np])
        | .error e => (some e, c, [])

/-- Per-unit work of the `bulkUpdateDocsPath` fan-out, one goroutine
per child in the source: guard the child's base directory, rebase its
path onto the new prefix, and update it through the store.  The state
component carries the store as updated by the units that already
committed; units touch pairwise distinct documents, so their store
effects commute and the fold order matches any interleaving. -/
def bulkStep (oldpath newpath : String) (st : DB × List (Option VfsError) × List Ev)
    (child : DirDoc) : DB × List (Option VfsError) × List Ev :=
  let (db, errs, tr) := st
  if ¬ strStarts child.fullpath (oldpath ++ "/") then
    (db, errs ++ [some .wrongBaseDir], tr)
  else
    let child2 := { child with
      fullpath := goPathJoin2 newpath (strDrop child.fullpath (strLen oldpath + 1)) }
    match UpdateDoc db child2 with
    | .ok db1 => (db1, errs ++ [none], tr ++ [.storeUpdate child.objID])
    | .error e => (db, errs ++ [some e], tr ++ [.storeUpdate child.objID])

/-- The whole fan-out of `bulkUpdateDocsPath`: one unit per descendant
returned by the prefix query. -/
def bulkRun (db : DB) (oldpath newpath : String) :
    DB × List (Option VfsError) × List Ev :=
  (FindDocs db (.startWithPath (oldpath ++ "/")) none).foldl
    (bulkStep oldpath newpath) (db, [], [])

/-- The per-unit results of the fan-out, one per spawned unit, in spawn
order — the multiset drained from the result channel. -/
def bulkUpdateResults (db : DB) (oldpath newpath : String) :
    List (Option VfsError) :=
  (bulkRun db oldpath newpath).2.1

/-- The source's channel-drain loop `for range children { if e :=
<-errc; e != nil { err = e } }`: each non-nil result overwrites the
error variable. -/
def collectErrs (errs : List (Option VfsError)) : Option VfsError :=
  errs.foldl (fun acc e => if e.isSome then e else acc) none

/-- `bulkUpdateDocsPath` of src/vfs/directory.go: query every record
whose path extends `oldpath + "/"`, spawn one unit of work per record,
wait for all of them, and return the collected error. -/
def bulkUpdateDocsPath (c : Context) (oldpath newpath : String) :
    Option VfsError × Context × List Ev :=
  let children := FindDocs c.db (.startWithPath (oldpath ++ "/")) none
  if children.length = 0 then (none, c, [])
  else
    let (db1, errs, tr) := bulkRun c.db oldpath newpath
    (collectErrs errs, { c with db := db1 }, tr)

/-- The parent lookup `ModifyDirMetadata` performs when the patch
changes the parent folder (`newdoc.Parent(c)` in the source):
re-resolve the new `FolderID` and surface its error; an unchanged
folder reuses the old in-memory parent reference and cannot fail. -/
def parentCheckErr (c : Context) (olddoc nd : DirDoc) : Option VfsError :=
  if nd.folderID ≠ olddoc.folderID then
    match getParentDir c.db nd.folderID with
    | .error e => some e
    | .ok _ => none
  else none

/-- The path-changed branch of `ModifyDirMetadata`: rename in the
backend, propagate the subtree, and only then persist the renamed
record itself. -/
def renameAndUpdate (c : Context) (oldpath newpath : String) (newdoc : DirDoc) :
    Except VfsError DirDoc × Context × List Ev :=
  match safeRenameDirectory c oldpath newpath with
  | (some e, c1, tr1) => (.error e, c1, tr1)
  | (none, c1, tr1) =>
    match bulkUpdateDocsPath c1 oldpath newpath with
    | (some e, c2, tr2) => (.error e, c2, tr1 ++ tr2)
    | (none, c2, tr2) =>
      match UpdateDoc c2.db newdoc with
      | .error e => (.error e, c2, tr1 ++ tr2)
      | .ok db1 =>
        (.ok newdoc, { c2 with db := db1 },
          tr1 ++ tr2 ++ [.storeUpdate newdoc.objID])

/-- The path-unchanged branch of `ModifyDirMetadata`: only the record
update runs. -/
def updateOnly (c : Context) (newdoc : DirDoc) :
    Except VfsError DirDoc × Context × List Ev :=
  match UpdateDoc c.db newdoc with
  | .error e => (.error e, c, [])
  | .ok db1 => (.ok newdoc, { c with db := db1 }, [.storeUpdate newdoc.objID])

/-- `ModifyDirMetadata` of src/vfs/directory.go: normalize the patch
and build the replacement record, resolve the new parent when the
folder changed, derive both paths, and if they differ rename in the
backend and propagate to the subtree before persisting the renamed
record itself; with an unchanged path only the record update runs.
The record passed to the store carries the derived new path, which the
source's `Path` memoized onto it. -/
def ModifyDirMetadata (c : Context) (olddoc : DirDoc) (patch : DocPatch)
    (now : Nat) : Except VfsError DirDoc × Context × List Ev :=
  match mkNewDirDoc olddoc patch now with
  | .error e => (.error e, c, [])
  | .ok nd =>
    match parentCheckErr c olddoc nd with
    | some e => (.error e, c, [])
    | none =>
      match olddoc.Path c.db with
      | .error e => (.error e, c, [])
      | .ok oldpath =>
        match nd.Path c.db with
        | .error e => (.error e, c, [])
        | .ok newpath =>
          if oldpath ≠ newpath then
            renameAndUpdate c oldpath newpath { nd with fullpath := newpath }
          else
            updateOnly c { nd with fullpath := newpath }

/-! ## Derived notions used by the statements -/

/-- First non-`nil` element of a result sequence (what the spec's
"first non-nil error observed" denotes on the drained channel). -/
def firstErr (errs : List (Option VfsError)) : Option VfsError :=
  errs.findSome? (fun e => e)

/-- Last non-`nil` element of a result sequence. -/
def lastErr (errs : List (Option VfsError)) : Option VfsError :=
  (errs.filterMap (fun e => e)).getLast?

/-- A secondary-index binding is sound when it resolves, through the
primary LRU cache, to a record currently cached under the bound id
whose secondary key equals the binding's key.  A binding failing this
is exactly a "stale" one: a path lookup through it would reach an
evicted or re-keyed record. -/
def bindingOKb (skey : DirDoc → String) (lru : LRUCache)
    (pr : String × String) : Bool :=
  match lruLookup lru pr.2 with
  | some d => decide (skey d = pr.1)
  | none => false

/-- Every binding of an index is sound (eviction consistency for one
cache/index pair). -/
def indexOK (skey : DirDoc → String) (lru : LRUCache)
    (idx : List (String × String)) : Bool :=
  idx.all (bindingOKb skey lru)

/-- Directory secondary key. -/
def dirKey (d : DirDoc) : String := d.fullpath

/-- File secondary key. -/
def fileKey (d : DirDoc) : String := genFilePathID d.folderID d.name

/-- The cache effect claimed for `DirFiles`: every record of the page
touched into the cache matching its discriminator, in order. -/
def applyTouches (fc : LocalCache) (l : List dirOrFile) : LocalCache :=
  l.foldl (fun fc r =>
    if r.type = FileType then fc.touchFile r
    else if r.type = DirType then fc.touchDir r
    else fc) fc

/-! ## Concrete states used by counterexamples and witnesses -/

/-- The tenant root record. -/
def rootRec : DirDoc :=
  { type := DirType, objID := RootFolderID, objRev := "r", name := "",
    folderID := "", createdAt := 0, updatedAt := 0, fullpath := "/", tags := [] }

/-- Directory `/a`, the record being renamed. -/
def recA : DirDoc :=
  { type := DirType, objID := "d0", objRev := "r0", name := "a",
    folderID := RootFolderID, createdAt := 1, updatedAt := 2,
    fullpath := "/a", tags := [] }

/-- Descendant `/a/x`. -/
def recC1 : DirDoc :=
  { type := DirType, objID := "c1", objRev := "rc", name := "x",
    folderID := "d0", createdAt := 1, updatedAt := 2,
    fullpath := "/a/x", tags := [] }

/-- Descendant `/a/y`. -/
def recC2 : DirDoc :=
  { type := DirType, objID := "c2", objRev := "rd", name := "y",
    folderID := "d0", createdAt := 1, updatedAt := 2,
    fullpath := "/a/y", tags := [] }

/-- An empty ten-entry cache. -/
def emptyCache : LocalCache :=
  { lrud := { maxEntries := 10, entries := [] }, pthd := [],
    lruf := { maxEntries := 10, entries := [] }, pthf := [] }

/-- Healthy context with `/a` and its descendant `/a/x`. -/
def ctxR : Context :=
  { db := { docs := [rootRec, recA, recC1], nextID := 0, failing := [],
            createFails := false },
    fs := { paths := ["/", "/a", "/a/x"] },
    cache := emptyCache }

/-- Patch renaming the entry to `b` in place. -/
def patchB : DocPatch :=
  { name := some "b", folderID := none, tags := none, updatedAt := none }

/-- Patch moving the entry under itself (parent set to its own id). -/
def patchSelf : DocPatch :=
  { name := some "b", folderID := some "d0", tags := none, updatedAt := none }

/-- The record `ModifyDirMetadata ctxR recA patchB 7` persists. -/
def recB : DirDoc :=
  { type := DirType, objID := "d0", objRev := "r0", name := "b",
    folderID := RootFolderID, createdAt := 1, updatedAt := 2,
    fullpath := "/b", tags := [] }

/-- Context whose store fails the writes of both descendants of `/a`. -/
def ctxC1 : Context :=
  { db := { docs := [rootRec, recA, recC1, recC2], nextID := 0,
            failing := ["c1", "c2"], createFails := false },
    fs := { paths := ["/", "/a", "/a/x", "/a/y"] },
    cache := emptyCache }

/-- Context whose store refuses document creation. -/
def ctxC4 : Context :=
  { db := { docs := [rootRec], nextID := 0, failing := [],
            createFails := true },
    fs := { paths := ["/"] },
    cache := emptyCache }

/-- Fresh directory record to create under the root. -/
def recNew : DirDoc :=
  { type := DirType, objID := "", objRev := "", name := "d",
    folderID := RootFolderID, createdAt := 3, updatedAt := 3,
    fullpath := "", tags := [] }

/-- A file record resident in the store. -/
def fileRec : DirDoc :=
  { type := FileType, objID := "f1", objRev := "rf", name := "n",
    folderID := "d0", createdAt := 1, updatedAt := 2,
    fullpath := "", tags := [] }

/-- Store holding `fileRec` and the directory `/a`. -/
def dbF : DB :=
  { docs := [recA, fileRec], nextID := 0, failing := [], createFails := false }

/-- Capacity-one directory/file caches holding one entry each, with
sound secondary indices — the witness state for eviction. -/
def fullCache : LocalCache :=
  { lrud := { maxEntries := 1, entries := [("d0", recA)] },
    pthd := [("/a", "d0")],
    lruf := { maxEntries := 1, entries := [("f1", fileRec)] },
    pthf := [(genFilePathID "d0" "n", "f1")] }

/-- A file record with a distinct id, whose insertion must evict. -/
def fileRec2 : DirDoc :=
  { type := FileType, objID := "f2", objRev := "rg", name := "m",
    folderID := "d0", createdAt := 1, updatedAt := 2,
    fullpath := "", tags := [] }

/-- A cache holding one directory and two files (the `Len` scenario). -/
def lenCache : LocalCache :=
  { lrud := { maxEntries := 10, entries := [("d0", recA)] },
    pthd := [("/a", "d0")],
    lruf := { maxEntries := 10, entries := [("f1", fileRec), ("f2", fileRec2)] },
    pthf := [(genFilePathID "d0" "n", "f1"), (genFilePathID "d0" "m", "f2")] }

/-- A file child of folder `p` named after the given id. -/
def childFile (id : String) : DirDoc :=
  { type := FileType, objID := id, objRev := "rv", name := id,
    folderID := "p", createdAt := 0, updatedAt := 0,
    fullpath := "", tags := [] }

/-- Store with eleven file children of folder `p` — one more than the
page size of the children query. -/
def dbC8 : DB :=
  { docs := [childFile "f01", childFile "f02", childFile "f03",
             childFile "f04", childFile "f05", childFile "f06",
             childFile "f07", childFile "f08", childFile "f09",
             childFile "f10", childFile "f11"],
    nextID := 0, failing := [], createFails := false }

/-- The parent directory record of the `dbC8` children. -/
def recP : DirDoc :=
  { type := DirType, objID := "p", objRev := "rp", name := "p",
    folderID := RootFolderID, createdAt := 0, updatedAt := 0,
    fullpath := "/p", tags := [] }

/-- Decidable equality for `Except` results, so that concrete runs of
the embedded operations can be checked by evaluation. -/
instance {ε α : Type} [DecidableEq ε] [DecidableEq α] : DecidableEq (Except ε α) :=
  fun x y =>
    match x, y with
    | .ok a, .ok b =>
      if h : a = b then isTrue (by rw [h])
      else isFalse (by intro hc; cases hc; exact h rfl)
    | .error a, .error b =>
      if h : a = b then isTrue (by rw [h])
      else isFalse (by intro hc; cases hc; exact h rfl)
    | .ok _, .error _ => isFalse (by intro hc; cases hc)
    | .error _, .ok _ => isFalse (by intro hc; cases hc)

/-! ## Helper lemmas -/

theorem getLast?_decomp {α : Type} : ∀ (l : List α) (a : α),
    l.getLast? = some a → ∃ init, l = init ++ [a] := by
  intro l
  induction l with
  | nil => intro a h; simp at h
  | cons x xs ih =>
    intro a h
    cases xs with
    | nil =>
      simp [List.getLast?] at h
      exact ⟨[], by simp [h]⟩
    | cons y ys =>
      rw [List.getLast?_cons_cons] at h
      obtain ⟨init, hinit⟩ := ih a h
      exact ⟨x :: init, by simp [hinit]⟩

theorem find?_append_or {α : Type} (p : α → Bool) :
    ∀ (l₁ l₂ : List α), (l₁ ++ l₂).find? p = ((l₁.find? p).or (l₂.find? p)) := by
  intro l₁ l₂
  induction l₁ with
  | nil => simp
  | cons x xs ih =>
    by_cases h : p x
    · simp [List.find?_cons, h]
    · simp only [List.cons_append, List.find?_cons, h]
      simp only [h, Bool.false_eq_true, if_false] at ih ⊢; exact ih

theorem getLast?_cons_isSome {α : Type} : ∀ (a : α) (l : List α),
    ((a :: l).getLast?).isSome = true := by
  intro a l
  induction l generalizing a with
  | nil => rfl
  | cons b bs ih => rw [List.getLast?_cons_cons]; exact ih b

theorem collect_aux : ∀ (errs : List (Option VfsError)) (acc : Option VfsError),
    errs.foldl (fun a e => if e.isSome then e else a) acc = (lastErr errs).or acc := by
  intro errs
  induction errs with
  | nil => intro acc; simp [lastErr]
  | cons e rest ih =>
    intro acc
    cases e with
    | none =>
      simp only [List.foldl_cons, Option.isSome_none, Bool.false_eq_true, if_false]
      rw [ih acc]
      simp [lastErr]
    | some x =>
      simp only [List.foldl_cons, Option.isSome_some, if_true]
      rw [ih (some x)]
      unfold lastErr
      have hfm : List.filterMap (fun e : Option VfsError => e) (some x :: rest)
          = x :: List.filterMap (fun e : Option VfsError => e) rest := by
        simp [List.filterMap_cons]
      rw [hfm]
      cases hrest : (List.filterMap (fun e : Option VfsError => e) rest).getLast? with
      | none =>
        have hnil : List.filterMap (fun e : Option VfsError => e) rest = [] := by
          cases hr : List.filterMap (fun e : Option VfsError => e) rest with
          | nil => rfl
          | cons z zs =>
            rw [hr] at hrest
            have := getLast?_cons_isSome z zs
            rw [hrest] at this
            simp at this
        rw [hnil]
        rfl
      | some z =>
        obtain ⟨init, hinit⟩ := getLast?_decomp _ _ hrest
        rw [hinit]
        have hsh : x :: (init ++ [z]) = (x :: init) ++ [z] := by simp
        rw [hsh, List.getLast?_concat]
        rfl

theorem collectErrs_eq_lastErr (errs : List (Option VfsError)) :
    collectErrs errs = lastErr errs := by
  unfold collectErrs
  rw [collect_aux]
  cases lastErr errs <;> rfl

theorem bulkStep_shape (oldpath newpath : String) (st : DB × List (Option VfsError) × List Ev)
    (child : DirDoc) :
    ∃ r tre, (bulkStep oldpath newpath st child).2.1 = st.2.1 ++ [r]
      ∧ (bulkStep oldpath newpath st child).2.2 = st.2.2 ++ tre
      ∧ ∀ e ∈ tre, ∃ i, e = Ev.storeUpdate i := by
  obtain ⟨db, errs, tr⟩ := st
  unfold bulkStep
  by_cases h : strStarts child.fullpath (oldpath ++ "/")
  · simp only [h]
    cases hup : UpdateDoc db { child with
        fullpath := goPathJoin2 newpath (strDrop child.fullpath (strLen oldpath + 1)) } with
    | ok db1 =>
      refine ⟨none, [Ev.storeUpdate child.objID], ?_⟩
      simp [hup]
    | error e =>
      refine ⟨some e, [Ev.storeUpdate child.objID], ?_⟩
      simp [hup]
  · simp only [h]
    exact ⟨some .wrongBaseDir, [], by simp⟩

theorem bulkRun_aux (oldpath newpath : String) :
    ∀ (l : List DirDoc) (st : DB × List (Option VfsError) × List Ev),
      ((l.foldl (bulkStep oldpath newpath) st).2.1.length = st.2.1.length + l.length)
      ∧ ∀ e ∈ (l.foldl (bulkStep oldpath newpath) st).2.2,
          (e ∈ st.2.2 ∨ ∃ i, e = Ev.storeUpdate i) := by
  intro l
  induction l with
  | nil =>
    intro st
    exact ⟨by simp, fun e he => Or.inl he⟩
  | cons child rest ih =>
    intro st
    simp only [List.foldl_cons]
    obtain ⟨r, tre, h1, h2, h3⟩ := bulkStep_shape oldpath newpath st child
    obtain ⟨ih1, ih2⟩ := ih (bulkStep oldpath newpath st child)
    constructor
    · rw [ih1, h1]
      simp [Nat.add_assoc, Nat.add_comm 1 rest.length]
    · intro e he
      rcases ih2 e he with hmem | hsu
      · rw [h2] at hmem
        rcases List.mem_append.mp hmem with hl | hr
        · exact Or.inl hl
        · exact Or.inr (h3 e hr)
      · exact Or.inr hsu

/-- Number of per-unit results equals the number of descendants found
by the prefix query: one unit of work, and one drained channel result,
per child. -/
theorem bulkUpdateResults_length (db : DB) (oldpath newpath : String) :
    (bulkUpdateResults db oldpath newpath).length
      = (FindDocs db (.startWithPath (oldpath ++ "/")) none).length := by
  unfold bulkUpdateResults bulkRun
  have := (bulkRun_aux oldpath newpath
    (FindDocs db (.startWithPath (oldpath ++ "/")) none) (db, [], [])).1
  simpa using this

/-- Every event of the fan-out trace is a store update. -/
theorem bulkRun_trace_storeUpdate (db : DB) (oldpath newpath : String) :
    ∀ e ∈ (bulkRun db oldpath newpath).2.2, ∃ i, e = Ev.storeUpdate i := by
  intro e he
  unfold bulkRun at he
  have := (bulkRun_aux oldpath newpath
    (FindDocs db (.startWithPath (oldpath ++ "/")) none) (db, [], [])).2 e he
  rcases this with h | h
  · simp at h
  · exact h

/-! ## C1 — error aggregation of the rename fan-out -/

/-- C1 (counterexample): with two descendants of `/a` whose store
writes both fail, the fan-out observes the failure of `c1` first
(`firstErr` of the drained results), yet `bulkUpdateDocsPath` returns
the failure of `c2` — the returned error is not the first non-nil
error observed, refuting the claim as stated. -/
theorem c1_counterexample :
    (bulkUpdateDocsPath ctxC1 "/a" "/b").1 = some (VfsError.updateFailed "c2")
    ∧ firstErr (bulkUpdateResults ctxC1.db "/a" "/b") = some (VfsError.updateFailed "c1")
    ∧ VfsError.updateFailed "c2" ≠ VfsError.updateFailed "c1" := by
  exact ⟨by decide, by decide, by decide⟩

/-- C1 (amended): one unit of work runs per descendant returned by the
prefix query and one result is drained per unit (the operation waits
for all of them, never cancelling siblings), and the error returned is
the last non-nil error observed — each later error overwrites the
earlier one, and no multi-error is accumulated. -/
theorem c1_amended_thm (c : Context) (oldpath newpath : String) :
    (bulkUpdateDocsPath c oldpath newpath).1
      = lastErr (bulkUpdateResults c.db oldpath newpath)
    ∧ (bulkUpdateResults c.db oldpath newpath).length
      = (FindDocs c.db (.startWithPath (oldpath ++ "/")) none).length := by
  refine ⟨?_, bulkUpdateResults_length c.db oldpath newpath⟩
  unfold bulkUpdateDocsPath bulkUpdateResults
  by_cases h : (FindDocs c.db (.startWithPath (oldpath ++ "/")) none).length = 0
  · have hnil : FindDocs c.db (.startWithPath (oldpath ++ "/")) none = [] :=
      List.length_eq_zero.mp h
    simp only [h, if_pos]
    unfold bulkRun
    rw [hnil]
    rfl
  · simp only [h, if_false]
    rcases hbr : bulkRun c.db oldpath newpath with ⟨db1, rest⟩
    rcases rest with ⟨errs, tr⟩
    simp only [collectErrs_eq_lastErr]

/-! ## C9 — Len counts the directory cache twice -/

/-- C9 (code bug): with one cached directory and two cached files,
`LocalCache.Len` returns 2 — the directory cache counted twice — while
the total number of resident entries across both caches is 3.  The
source adds `fc.lrud.Len()` to itself instead of adding `fc.lruf.Len()`,
contradicting its announced meaning (spec: "total entries across both
caches"). -/
theorem c9_bug_eval :
    LocalCache.Len lenCache = 2
    ∧ lruLen lenCache.lrud + lruLen lenCache.lruf = 3
    ∧ LocalCache.Len lenCache ≠ lruLen lenCache.lrud + lruLen lenCache.lruf := by
  exact ⟨by decide, by decide, by decide⟩

/-! ## C10 — empty parent folder id defaults to the root -/

/-- C10: for every valid name and every tag list, `NewDirDoc` with an
empty parent-folder identifier produces a record whose `FolderID` is
the distinguished root folder identifier. -/
theorem c10_confirmed (now : Nat) (nm : String) (tags : List String)
    (hvalid : checkFileName nm = none) :
    ∃ d, NewDirDoc now nm "" tags = .ok d ∧ d.folderID = RootFolderID := by
  unfold NewDirDoc
  rw [hvalid]
  exact ⟨_, rfl, rfl⟩

/-- C10 witness: the valid name `d` with a duplicated tag list. -/
theorem c10_witness :
    checkFileName "d" = none
    ∧ ∃ d, NewDirDoc 3 "d" "" ["t", "t"] = .ok d ∧ d.folderID = RootFolderID :=
  ⟨by decide, c10_confirmed 3 "d" ["t", "t"] (by decide)⟩

/-! ## C5 — get-by-id cache behaviour -/

theorem dirCachedByID_hit {fc : LocalCache} {id : String} {v : DirDoc}
    (h : lruLookup fc.lrud id = some v) :
    fc.dirCachedByID id
      = (some v, { fc with lrud :=
          { fc.lrud with entries := (id, v) :: (lruErase fc.lrud id).entries } }) := by
  unfold LocalCache.dirCachedByID lruGet
  rw [h]

theorem fileCachedByID_hit {fc : LocalCache} {id : String} {v : DirDoc}
    (h : lruLookup fc.lruf id = some v) :
    fc.fileCachedByID id
      = (some v, { fc with lruf :=
          { fc.lruf with entries := (id, v) :: (lruErase fc.lruf id).entries } }) := by
  unfold LocalCache.fileCachedByID lruGet
  rw [h]

theorem dirCachedByID_miss {fc : LocalCache} {id : String}
    (h : lruLookup fc.lrud id = none) : fc.dirCachedByID id = (none, fc) := by
  unfold LocalCache.dirCachedByID lruGet
  rw [h]

theorem fileCachedByID_miss {fc : LocalCache} {id : String}
    (h : lruLookup fc.lruf id = none) : fc.fileCachedByID id = (none, fc) := by
  unfold LocalCache.fileCachedByID lruGet
  rw [h]

theorem GetDoc_ok_id {db : DB} {id : String} {r : DirDoc}
    (h : GetDoc db id = .ok r) : r.objID = id := by
  unfold GetDoc at h
  cases hfind : db.docs.find? (fun d => decide (d.objID = id)) with
  | none => rw [hfind] at h; simp at h
  | some r0 =>
    rw [hfind] at h
    have hr0 : r0 = r := by simpa using h
    have := List.find?_some hfind
    rw [hr0] at this
    exact of_decide_eq_true this

theorem lruLookup_touch_head (lru : LRUCache) (k : String) (v : DirDoc) :
    lruLookup (lruAdd lru k v).1 k = some v := by
  unfold lruAdd lruLookup
  by_cases h : 0 < lru.maxEntries
      ∧ lru.maxEntries < ((k, v) :: (lruErase lru k).entries).length
  · simp only [h, and_self, if_true]
    obtain ⟨h1, _⟩ := h
    obtain ⟨m, hm⟩ := Nat.exists_eq_succ_of_ne_zero (Nat.pos_iff_ne_zero.mp h1)
    rw [hm, List.take_succ_cons]
    simp [List.find?_cons]
  · simp only [if_neg h]
    simp [List.find?_cons]

theorem touchDir_lrud (fc : LocalCache) (r : DirDoc) :
    (fc.touchDir r).lrud = (lruAdd (lruGet fc.lrud r.objID).2 r.objID r).1 := rfl

theorem touchDir_cached (fc : LocalCache) (r : DirDoc) :
    ((fc.touchDir r).dirCachedByID r.objID).1 = some r := by
  have h : lruLookup (fc.touchDir r).lrud r.objID = some r := by
    rw [touchDir_lrud]
    exact lruLookup_touch_head _ r.objID r
  unfold LocalCache.dirCachedByID lruGet
  rw [h]

/-- C5 (counterexample): on a cache miss, `FileByID` succeeds against
the store but returns with the cache exactly as it was — the fetched
file record is not inserted, so an immediate second lookup still
misses; this refutes the claim that both variants insert the fetched
record into the cache before returning. -/
theorem c5_counterexample :
    (LocalCache.FileByID emptyCache dbF "f1").1 = .ok fileRec
    ∧ (LocalCache.FileByID emptyCache dbF "f1").2 = emptyCache
    ∧ (((LocalCache.FileByID emptyCache dbF "f1").2).fileCachedByID "f1").1 = none := by
  exact ⟨by decide, by decide, by decide⟩

/-- C5 (amended): full get-by-id contract of both variants.  A cache
hit promotes the entry to the most-recently-used position and returns
it without a store round-trip.  A miss fetches from the store: an
absent record fails with the not-found error (mapped to
`ErrParentDoesNotExist` by the directory variant), a record of the
wrong discriminator fails with `os.ErrNotExist`, and on success the
DIRECTORY lookup inserts the fetched record into the directory cache
(via `touchDir`, after which the record is resolvable by id) before
returning it, while the FILE lookup returns the fetched record with
the cache unchanged. -/
theorem c5_amended_thm (fc : LocalCache) (db : DB) (id : String) :
    (∀ v, lruLookup fc.lrud id = some v →
      fc.DirByID db id
        = (.ok v, { fc with lrud :=
            { fc.lrud with entries := (id, v) :: (lruErase fc.lrud id).entries } }))
    ∧ (∀ v, lruLookup fc.lruf id = some v →
      fc.FileByID db id
        = (.ok v, { fc with lruf :=
            { fc.lruf with entries := (id, v) :: (lruErase fc.lruf id).entries } }))
    ∧ (lruLookup fc.lrud id = none → GetDoc db id = .error .notFound →
        fc.DirByID db id = (.error .parentDoesNotExist, fc))
    ∧ (lruLookup fc.lruf id = none → GetDoc db id = .error .notFound →
        fc.FileByID db id = (.error .notFound, fc))
    ∧ (∀ r, lruLookup fc.lrud id = none → GetDoc db id = .ok r →
        r.type ≠ DirType → fc.DirByID db id = (.error .notExist, fc))
    ∧ (∀ r, lruLookup fc.lruf id = none → GetDoc db id = .ok r →
        r.type ≠ FileType → fc.FileByID db id = (.error .notExist, fc))
    ∧ (∀ r, lruLookup fc.lrud id = none → GetDoc db id = .ok r →
        r.type = DirType →
        fc.DirByID db id = (.ok r, fc.touchDir r)
        ∧ ((fc.touchDir r).dirCachedByID id).1 = some r)
    ∧ (∀ r, lruLookup fc.lruf id = none → GetDoc db id = .ok r →
        r.type = FileType → fc.FileByID db id = (.ok r, fc)) := by
  refine ⟨?_, ?_, ?_, ?_, ?_, ?_, ?_, ?_⟩
  · intro v hv
    unfold LocalCache.DirByID
    rw [dirCachedByID_hit hv]
  · intro v hv
    unfold LocalCache.FileByID
    rw [fileCachedByID_hit hv]
  · intro hmiss habs
    unfold LocalCache.DirByID
    rw [dirCachedByID_miss hmiss, habs]
    rfl
  · intro hmiss habs
    unfold LocalCache.FileByID
    rw [fileCachedByID_miss hmiss, habs]
  · intro r hmiss hok hne
    unfold LocalCache.DirByID
    rw [dirCachedByID_miss hmiss, hok]
    simp [hne]
  · intro r hmiss hok hne
    unfold LocalCache.FileByID
    rw [fileCachedByID_miss hmiss, hok]
    simp [hne]
  · intro r hmiss hok htyp
    constructor
    · unfold LocalCache.DirByID
      rw [dirCachedByID_miss hmiss, hok]
      simp [htyp]
    · have hid := GetDoc_ok_id hok
      rw [← hid]
      exact touchDir_cached fc r
  · intro r hmiss hok htyp
    unfold LocalCache.FileByID
    rw [fileCachedByID_miss hmiss, hok]
    simp [htyp]

/-- C5 witness: every conjunct of the amended contract exercised
concretely — hits against the resident entries of `fullCache`
(promoting them to the front), and misses against the empty cache for
an absent id (`zz`), a wrong discriminator (directory lookup of the
file `f1`, file lookup of the directory `d0`) and a successful fetch
of each kind. -/
theorem c5_amended_witness :
    LocalCache.DirByID fullCache dbF "d0"
      = (.ok recA, { fullCache with lrud :=
          { fullCache.lrud with
            entries := ("d0", recA) :: (lruErase fullCache.lrud "d0").entries } })
    ∧ LocalCache.FileByID fullCache dbF "f1"
      = (.ok fileRec, { fullCache with lruf :=
          { fullCache.lruf with
            entries := ("f1", fileRec) :: (lruErase fullCache.lruf "f1").entries } })
    ∧ LocalCache.DirByID emptyCache dbF "zz" = (.error .parentDoesNotExist, emptyCache)
    ∧ LocalCache.FileByID emptyCache dbF "zz" = (.error .notFound, emptyCache)
    ∧ LocalCache.DirByID emptyCache dbF "f1" = (.error .notExist, emptyCache)
    ∧ LocalCache.FileByID emptyCache dbF "d0" = (.error .notExist, emptyCache)
    ∧ (LocalCache.DirByID emptyCache dbF "d0" = (.ok recA, emptyCache.touchDir recA)
        ∧ ((emptyCache.touchDir recA).dirCachedByID "d0").1 = some recA)
    ∧ LocalCache.FileByID emptyCache dbF "f1" = (.ok fileRec, emptyCache) :=
  ⟨(c5_amended_thm fullCache dbF "d0").1 recA (by decide),
   (c5_amended_thm fullCache dbF "f1").2.1 fileRec (by decide),
   (c5_amended_thm emptyCache dbF "zz").2.2.1 (by decide) (by decide),
   (c5_amended_thm emptyCache dbF "zz").2.2.2.1 (by decide) (by decide),
   (c5_amended_thm emptyCache dbF "f1").2.2.2.2.1 fileRec (by decide) (by decide)
     (by decide),
   (c5_amended_thm emptyCache dbF "d0").2.2.2.2.2.1 recA (by decide) (by decide)
     (by decide),
   (c5_amended_thm emptyCache dbF "d0").2.2.2.2.2.2.1 recA (by decide) (by decide)
     (by decide),
   (c5_amended_thm emptyCache dbF "f1").2.2.2.2.2.2.2 fileRec (by decide) (by decide)
     (by decide)⟩

/-! ## C4 — all-or-nothing directory creation -/

theorem mkdir_ok_inv {fs : FS} {nm : String} {fs1 : FS}
    (h : fs.mkdir nm = .ok fs1) :
    nm ∉ fs.paths ∧ fs1 = FS.mk (nm :: fs.paths) := by
  unfold FS.mkdir at h
  by_cases h1 : nm ∈ fs.paths
  · rw [if_pos h1] at h; cases h
  · rw [if_neg h1] at h
    by_cases h2 : goPathDir nm ∈ fs.paths
    · rw [if_pos h2] at h
      refine ⟨h1, ?_⟩
      cases h
      rfl
    · rw [if_neg h2] at h; cases h

theorem filter_ne_of_not_mem {l : List String} {nm : String} (h : nm ∉ l) :
    l.filter (fun q => !(decide (q = nm))) = l := by
  apply List.filter_eq_self.mpr
  intro a ha
  simp only [Bool.not_eq_true', decide_eq_false_iff_not]
  intro hc
  exact h (hc ▸ ha)

/-- C4: `CreateDirectory` is all-or-nothing.  When the backend mkdir
fails nothing has been mutated; when the backend mkdir succeeds and the
record persist fails, the just-created backend path is removed before
the error is returned, leaving backend, store and cache exactly as they
were — neither an orphaned backend path nor an orphaned record. -/
theorem c4_confirmed (c : Context) (doc : DirDoc) (nm : String)
    (hpath : doc.Path c.db = .ok nm) :
    (∀ e, c.fs.mkdir nm = .error e → CreateDirectory c doc = (some e, c))
    ∧ (∀ fs1 e, c.fs.mkdir nm = .ok fs1 →
        CreateDoc c.db { doc with fullpath := nm } = .error e →
        (CreateDirectory c doc).1 = some e
        ∧ (CreateDirectory c doc).2.fs = c.fs
        ∧ (CreateDirectory c doc).2.db = c.db
        ∧ (CreateDirectory c doc).2.cache = c.cache) := by
  constructor
  · intro e hmk
    unfold CreateDirectory
    simp only [hpath, hmk]
  · intro fs1 e hmk hcr
    obtain ⟨hnm, hfs1⟩ := mkdir_ok_inv hmk
    have hrun : CreateDirectory c doc = (some e, { c with fs := fs1.remove nm }) := by
      unfold CreateDirectory
      simp only [hpath, hmk, hcr]
    rw [hrun]
    refine ⟨rfl, ?_, rfl, rfl⟩
    rw [hfs1]
    unfold FS.remove
    have hfilter : (nm :: c.fs.paths).filter (fun q => !(decide (q = nm)))
        = c.fs.paths := by
      rw [List.filter_cons]
      have hh : (!(decide (nm = nm))) = false := by simp
      rw [hh]
      simp only [Bool.false_eq_true, if_false]
      exact filter_ne_of_not_mem hnm
    simp only [hfilter]

/-- C4 witness: a store that refuses creation; creating `/d` under the
root makes the backend path, fails the persist, and restores the
context completely. -/
theorem c4_witness :
    (CreateDirectory ctxC4 recNew).1 = some VfsError.createFailed
    ∧ (CreateDirectory ctxC4 recNew).2.fs = ctxC4.fs
    ∧ (CreateDirectory ctxC4 recNew).2.db = ctxC4.db
    ∧ (CreateDirectory ctxC4 recNew).2.cache = ctxC4.cache :=
  (c4_confirmed ctxC4 recNew "/d" (by decide)).2 (FS.mk ["/d", "/"])
    VfsError.createFailed (by decide) (by decide)

/-! ## C3 — ForbiddenMove precondition -/

theorem listIsPre_length : ∀ l1 l2 : List Char,
    listIsPre l1 l2 = true → l1.length ≤ l2.length := by
  intro l1
  induction l1 with
  | nil => intro l2 _; exact Nat.zero_le _
  | cons a as ih =>
    intro l2 h
    cases l2 with
    | nil => simp [listIsPre] at h
    | cons b bs =>
      unfold listIsPre at h
      have h2 := (Bool.and_eq_true _ _).mp h
      exact Nat.succ_le_succ (ih bs h2.2)

theorem strStarts_self_slash (s : String) : strStarts s (s ++ "/") = false := by
  cases hb : strStarts s (s ++ "/") with
  | false => rfl
  | true =>
    exfalso
    unfold strStarts at hb
    have hlist : (s ++ "/").toList = s.toList ++ ['/'] := by
      cases s
      rfl
    rw [hlist] at hb
    have := listIsPre_length _ _ hb
    simp at this

/-- C3: when the derived new path is a strict descendant of the old
path (the cleaned new path extends the cleaned old path plus the
separator), `ModifyDirMetadata` fails with `ErrForbiddenDocMove` and
returns the context exactly as it was — the check fires inside
`safeRenameDirectory` before the backend rename, the subtree
propagation and the record update, so backend, store and cache are all
untouched and no event is emitted. -/
theorem c3_confirmed (c : Context) (olddoc : DirDoc) (patch : DocPatch) (now : Nat)
    (nd : DirDoc) (op np : String)
    (h1 : mkNewDirDoc olddoc patch now = .ok nd)
    (h2 : nd.folderID = olddoc.folderID ∨ ∃ p, getParentDir c.db nd.folderID = .ok p)
    (h3 : olddoc.Path c.db = .ok op)
    (h4 : nd.Path c.db = .ok np)
    (h5 : goPathIsAbs (goPathClean op) = true)
    (h6 : goPathIsAbs (goPathClean np) = true)
    (h7 : strStarts (goPathClean np) (goPathClean op ++ "/") = true) :
    ModifyDirMetadata c olddoc patch now = (.error .forbiddenDocMove, c, []) := by
  have hneq : op ≠ np := by
    intro he
    rw [he, strStarts_self_slash] at h7
    cases h7
  have hpc : parentCheckErr c olddoc nd = none := by
    unfold parentCheckErr
    rcases h2 with hfol | ⟨p, hp⟩
    · rw [if_neg (by simp [hfol])]
    · by_cases hf : nd.folderID = olddoc.folderID
      · rw [if_neg (by simp [hf])]
      · rw [if_pos hf, hp]
  have hsafe : safeRenameDirectory c op np = (some .forbiddenDocMove, c, []) := by
    unfold safeRenameDirectory
    rw [if_neg (by simp [h5, h6]), if_pos h7]
  have hra : renameAndUpdate c op np { nd with fullpath := np }
      = (.error .forbiddenDocMove, c, []) := by
    unfold renameAndUpdate
    rw [hsafe]
  unfold ModifyDirMetadata
  simp only [h1, hpc, h3, h4, if_pos hneq, hra]

/-- C3 witness: moving `/a` below itself (parent patched to its own
id, derived new path `/a/b`) is rejected with the context unchanged. -/
theorem c3_witness :
    ModifyDirMetadata ctxR recA patchSelf 7
      = (.error .forbiddenDocMove, ctxR, []) :=
  c3_confirmed ctxR recA patchSelf 7
    { type := "directory", objID := "d0", objRev := "r0", name := "b",
      folderID := "d0", createdAt := 1, updatedAt := 2, fullpath := "",
      tags := [] }
    "/a" "/a/b" (by decide) (Or.inr ⟨recA, by decide⟩) (by decide) (by decide)
    (by decide) (by decide) (by decide)

/-! ## C8 — list-children partition, page bound and cache touches -/

theorem dirFilesStep_file (acc : List FileDoc × List DirDoc × LocalCache)
    (r : dirOrFile) (h : r.type = FileType) :
    dirFilesStep acc r = (acc.1 ++ [r], acc.2.1, acc.2.2.touchFile r) := by
  unfold dirFilesStep DirDoc.refine
  simp [h]

theorem dirFilesStep_dir (acc : List FileDoc × List DirDoc × LocalCache)
    (r : dirOrFile) (h : r.type = DirType) :
    dirFilesStep acc r = (acc.1, acc.2.1 ++ [r], acc.2.2.touchDir r) := by
  unfold dirFilesStep DirDoc.refine
  have hne : ¬ (r.type = FileType) := by
    rw [h]; decide
  have hdf : ¬ (DirType = FileType) := by decide
  simp [hne, h, hdf]

theorem dirFilesStep_other (acc : List FileDoc × List DirDoc × LocalCache)
    (r : dirOrFile) (h1 : ¬ r.type = FileType) (h2 : ¬ r.type = DirType) :
    dirFilesStep acc r = acc := by
  unfold dirFilesStep DirDoc.refine
  simp [h1, h2]

theorem dirFiles_fold : ∀ (l : List dirOrFile) (fs ds : List DirDoc) (fc : LocalCache),
    l.foldl dirFilesStep (fs, ds, fc)
      = (fs ++ l.filter (fun r => decide (r.type = FileType)),
         ds ++ l.filter (fun r => decide (r.type = DirType)),
         applyTouches fc l) := by
  intro l
  induction l with
  | nil => intro fs ds fc; simp [applyTouches]
  | cons r rest ih =>
    intro fs ds fc
    simp only [List.foldl_cons, List.filter_cons]
    by_cases hF : r.type = FileType
    · have hD : ¬ r.type = DirType := by rw [hF]; decide
      rw [dirFilesStep_file (fs, ds, fc) r hF]
      rw [ih (fs ++ [r]) ds (fc.touchFile r)]
      have ha : applyTouches fc (r :: rest) = applyTouches (fc.touchFile r) rest := by
        unfold applyTouches
        simp only [List.foldl_cons, if_pos hF]
      have hfd : ¬ (FileType = DirType) := by decide
      simp [hF, hD, ha, hfd]
    · by_cases hD : r.type = DirType
      · rw [dirFilesStep_dir (fs, ds, fc) r hD]
        rw [ih fs (ds ++ [r]) (fc.touchDir r)]
        have ha : applyTouches fc (r :: rest) = applyTouches (fc.touchDir r) rest := by
          unfold applyTouches
          simp only [List.foldl_cons, if_neg hF, if_pos hD]
        have hdf : ¬ (DirType = FileType) := by decide
        simp [hF, hD, ha, hdf]
      · rw [dirFilesStep_other (fs, ds, fc) r hF hD]
        rw [ih fs ds fc]
        have ha : applyTouches fc (r :: rest) = applyTouches fc rest := by
          unfold applyTouches
          simp only [List.foldl_cons, if_neg hF, if_neg hD]
        simp [hF, hD, ha]

/-- C8 (amended): `DirFiles` returns the page (at most 10 records) of
store entries whose `folder_id` equals the directory's id — all of
them whenever at most 10 exist, as hypothesised here — partitioned by
discriminator in query order, with every returned record touched into
the cache of its kind (the final cache is exactly the fold of those
touches) before the slices are returned; every matching store record
then appears in the returned slice of its discriminator. -/
theorem c8_amended_thm (fc : LocalCache) (db : DB) (doc : DirDoc)
    (hcount : (db.docs.filter (fun r => decide (r.folderID = doc.objID))).length ≤ 10) :
    LocalCache.DirFiles fc db doc
      = (((db.docs.filter (fun r => decide (r.folderID = doc.objID))).filter
            (fun r => decide (r.type = FileType)),
          (db.docs.filter (fun r => decide (r.folderID = doc.objID))).filter
            (fun r => decide (r.type = DirType))),
         applyTouches fc (db.docs.filter (fun r => decide (r.folderID = doc.objID))))
    ∧ ∀ r ∈ db.docs, r.folderID = doc.objID →
        (r.type = FileType → r ∈ (LocalCache.DirFiles fc db doc).1.1)
        ∧ (r.type = DirType → r ∈ (LocalCache.DirFiles fc db doc).1.2) := by
  have hsat : (Selector.eqFolderID doc.objID).sat
      = fun r => decide (r.folderID = doc.objID) := funext (fun r => rfl)
  have hfind : FindDocs db (.eqFolderID doc.objID) (some 10)
      = db.docs.filter (fun r => decide (r.folderID = doc.objID)) := by
    unfold FindDocs
    rw [hsat]
    exact List.take_of_length_le hcount
  have hmain : LocalCache.DirFiles fc db doc
      = (((db.docs.filter (fun r => decide (r.folderID = doc.objID))).filter
            (fun r => decide (r.type = FileType)),
          (db.docs.filter (fun r => decide (r.folderID = doc.objID))).filter
            (fun r => decide (r.type = DirType))),
         applyTouches fc (db.docs.filter (fun r => decide (r.folderID = doc.objID)))) := by
    unfold LocalCache.DirFiles
    simp only [hfind, dirFiles_fold]
    simp
  refine ⟨hmain, ?_⟩
  intro r hr hfol
  constructor
  · intro htype
    rw [hmain]
    simp only []
    exact List.mem_filter.mpr
      ⟨List.mem_filter.mpr ⟨hr, by simp [hfol]⟩, by simp [htype]⟩
  · intro htype
    rw [hmain]
    simp only []
    exact List.mem_filter.mpr
      ⟨List.mem_filter.mpr ⟨hr, by simp [hfol]⟩, by simp [htype]⟩

/-- C8 (counterexample): with eleven file children of folder `p`, the
eleventh child matches the query's parent id yet is absent from both
returned slices — the `Limit: 10` page bound means the result does not
contain all entries whose `ParentID` equals the given id. -/
theorem c8_counterexample :
    childFile "f11" ∈ dbC8.docs
    ∧ (childFile "f11").folderID = recP.objID
    ∧ childFile "f11" ∉ (LocalCache.DirFiles emptyCache dbC8 recP).1.1
    ∧ childFile "f11" ∉ (LocalCache.DirFiles emptyCache dbC8 recP).1.2 := by
  exact ⟨by decide, by decide, by decide, by decide⟩

/-- C8 witness: a store with a single file child of `d0` (one page). -/
theorem c8_amended_witness :
    LocalCache.DirFiles emptyCache dbF recA
      = (((dbF.docs.filter (fun r => decide (r.folderID = recA.objID))).filter
            (fun r => decide (r.type = FileType)),
          (dbF.docs.filter (fun r => decide (r.folderID = recA.objID))).filter
            (fun r => decide (r.type = DirType))),
         applyTouches emptyCache (dbF.docs.filter (fun r => decide (r.folderID = recA.objID))))
    ∧ ∀ r ∈ dbF.docs, r.folderID = recA.objID →
        (r.type = FileType → r ∈ (LocalCache.DirFiles emptyCache dbF recA).1.1)
        ∧ (r.type = DirType → r ∈ (LocalCache.DirFiles emptyCache dbF recA).1.2) :=
  c8_amended_thm emptyCache dbF recA (by decide)

/-! ## C7 — rename persists records directly to the store -/

theorem safeRename_cache (c : Context) (o n : String) :
    (safeRenameDirectory c o n).2.1.cache = c.cache := by
  unfold safeRenameDirectory
  dsimp only
  repeat' split
  all_goals rfl

theorem bulk_cache (c : Context) (o n : String) :
    (bulkUpdateDocsPath c o n).2.1.cache = c.cache := by
  unfold bulkUpdateDocsPath
  dsimp only
  repeat' split
  all_goals rfl

theorem renameAndUpdate_cache (c : Context) (o n : String) (d : DirDoc) :
    (renameAndUpdate c o n d).2.1.cache = c.cache := by
  unfold renameAndUpdate
  rcases hsr : safeRenameDirectory c o n with ⟨eo, c1, tr1⟩
  have hc1 : c1.cache = c.cache := by
    have h := safeRename_cache c o n
    rw [hsr] at h
    exact h
  cases eo with
  | some e => exact hc1
  | none =>
    dsimp only
    rcases hbu : bulkUpdateDocsPath c1 o n with ⟨eo2, c2, tr2⟩
    have hc2 : c2.cache = c.cache := by
      have h := bulk_cache c1 o n
      rw [hbu] at h
      rw [h]
      exact hc1
    cases eo2 with
    | some e => exact hc2
    | none =>
      dsimp only
      cases UpdateDoc c2.db d with
      | error e => exact hc2
      | ok db1 => exact hc2

theorem updateOnly_cache (c : Context) (d : DirDoc) :
    (updateOnly c d).2.1.cache = c.cache := by
  unfold updateOnly
  cases UpdateDoc c.db d with
  | error e => rfl
  | ok db1 => rfl

/-- C7 (counterexample): a successful rename of `/a` (with descendant
`/a/x`) persists the renamed record and the rebuilt descendant through
direct store updates — the trace shows the two `couchdb.UpdateDoc`
calls — while the Path Cache component of the context is left exactly
as it was: afterwards it still has no binding for the new path `/b`,
refuting the claim that the records are persisted through the Path
Cache's update operation so that the cache is refreshed with the new
paths. -/
theorem c7_counterexample :
    (ModifyDirMetadata ctxR recA patchB 7).1 = .ok recB
    ∧ (ModifyDirMetadata ctxR recA patchB 7).2.1.cache = ctxR.cache
    ∧ mapLookup ((ModifyDirMetadata ctxR recA patchB 7).2.1.cache).pthd "/b" = none
    ∧ (ModifyDirMetadata ctxR recA patchB 7).2.2
        = [Ev.fsRename "/a" "/b", Ev.storeUpdate "c1", Ev.storeUpdate "d0"] := by
  exact ⟨by decide, by decide, by decide, by decide⟩

/-- C7 (amended): for every modify-metadata call, the renamed entry's
record and the rebuilt descendant records are persisted by direct
store updates (`couchdb.UpdateDoc`); the Path Cache is neither
consulted nor refreshed — the cache component of the context is
unchanged by `ModifyDirMetadata` and by the subtree propagation. -/
theorem c7_amended_thm (c : Context) (olddoc : DirDoc) (patch : DocPatch)
    (now : Nat) (o n : String) :
    (ModifyDirMetadata c olddoc patch now).2.1.cache = c.cache
    ∧ (bulkUpdateDocsPath c o n).2.1.cache = c.cache := by
  refine ⟨?_, bulk_cache c o n⟩
  unfold ModifyDirMetadata
  rcases hmk : mkNewDirDoc olddoc patch now with e | nd
  · simp [hmk]
  · simp only [hmk]
    rcases hpc : parentCheckErr c olddoc nd with _ | e
    · simp only [hpc]
      rcases hop : olddoc.Path c.db with e | oldpath
      · simp [hop]
      · simp only [hop]
        rcases hnp : nd.Path c.db with e | newpath
        · simp [hnp]
        · simp only [hnp]
          by_cases hpq : oldpath ≠ newpath
          · rw [if_pos hpq]
            exact renameAndUpdate_cache c oldpath newpath _
          · rw [if_neg hpq]
            exact updateOnly_cache c _
    · simp [hpc]

/-! ## C2 — ordering of record update and subtree propagation -/

theorem mkNewDirDoc_objID {olddoc : DirDoc} {patch : DocPatch} {now : Nat}
    {nd : DirDoc} (h : mkNewDirDoc olddoc patch now = .ok nd) :
    nd.objID = olddoc.objID := by
  unfold mkNewDirDoc at h
  dsimp only at h
  cases hN : NewDirDoc now (normalizeDocPatch olddoc patch).name
      (normalizeDocPatch olddoc patch).folderID (normalizeDocPatch olddoc patch).tags with
  | error e => rw [hN] at h; cases h
  | ok nd0 =>
    rw [hN] at h
    dsimp only at h
    have h2 : ({ nd0 with
        objID := olddoc.objID, objRev := olddoc.objRev,
        createdAt := olddoc.createdAt,
        updatedAt := (normalizeDocPatch olddoc patch).updatedAt } : DirDoc) = nd := by
      cases h
      rfl
    rw [← h2]

theorem safeRename_none_trace {c : Context} {o n : String} {c1 : Context}
    {tr1 : List Ev} (h : safeRenameDirectory c o n = (none, c1, tr1)) :
    tr1 = [Ev.fsRename (goPathClean o) (goPathClean n)] := by
  unfold safeRenameDirectory at h
  dsimp only at h
  repeat' split at h
  all_goals simp only [Prod.mk.injEq] at h
  all_goals try exact h.2.2.symm
  all_goals simp at h

theorem bulkUpdate_trace_storeUpdate (c : Context) (o n : String) :
    ∀ e ∈ (bulkUpdateDocsPath c o n).2.2, ∃ i, e = Ev.storeUpdate i := by
  intro e he
  unfold bulkUpdateDocsPath at he
  dsimp only at he
  by_cases h : (FindDocs c.db (.startWithPath (o ++ "/")) none).length = 0
  · simp [h] at he
  · simp only [h, if_false] at he
    rcases hbr : bulkRun c.db o n with ⟨db1, errs, tr⟩
    rw [hbr] at he
    have hall := bulkRun_trace_storeUpdate c.db o n
    rw [hbr] at hall
    exact hall e he

theorem renameAndUpdate_ok_trace (c : Context) (o n : String) (d dd : DirDoc)
    (a b : String)
    (hok : (renameAndUpdate c o n d).1 = .ok dd)
    (hren : Ev.fsRename a b ∈ (renameAndUpdate c o n d).2.2) :
    ∃ mid, (renameAndUpdate c o n d).2.2
        = Ev.fsRename a b :: mid ++ [Ev.storeUpdate d.objID]
      ∧ ∀ e ∈ mid, ∃ i, e = Ev.storeUpdate i := by
  unfold renameAndUpdate at hok hren ⊢
  rcases hsr : safeRenameDirectory c o n with ⟨eo, c1, tr1⟩
  rw [hsr] at hok hren
  cases eo with
  | some e => simp at hok
  | none =>
    dsimp only at hok hren ⊢
    have htr1 : tr1 = [Ev.fsRename (goPathClean o) (goPathClean n)] :=
      safeRename_none_trace hsr
    rcases hbu : bulkUpdateDocsPath c1 o n with ⟨eo2, c2, tr2⟩
    rw [hbu] at hok hren
    have htr2 : ∀ e ∈ tr2, ∃ i, e = Ev.storeUpdate i := by
      have hall := bulkUpdate_trace_storeUpdate c1 o n
      rw [hbu] at hall
      exact hall
    cases eo2 with
    | some e => simp at hok
    | none =>
      dsimp only at hok hren ⊢
      cases hud : UpdateDoc c2.db d with
      | error e => rw [hud] at hok; simp at hok
      | ok db1 =>
        rw [hud] at hok hren
        dsimp only at hok hren ⊢
        -- the trace is tr1 ++ tr2 ++ [storeUpdate d.objID]
        have hab : Ev.fsRename a b = Ev.fsRename (goPathClean o) (goPathClean n) := by
          rw [htr1] at hren
          rcases List.mem_append.mp hren with h12 | hlast
          · rcases List.mem_append.mp h12 with h1 | h2
            · simpa using h1
            · obtain ⟨i, hi⟩ := htr2 _ h2
              cases hi
          · simp at hlast
        refine ⟨tr2, ?_, htr2⟩
        rw [htr1, hab]
        simp

/-- C2 (counterexample): renaming `/a` (id `d0`, descendant `/a/x` of
id `c1`) emits the descendant's store update at position 1 of the
trace and the renamed record's own update at position 2 — the record
update (`RecordUpdated`) happens after the subtree propagation, not
before it, refuting the claimed
`Validated → BackendRenamed → RecordUpdated → Propagated` order. -/
theorem c2_counterexample :
    (ModifyDirMetadata ctxR recA patchB 7).1 = .ok recB
    ∧ ((ModifyDirMetadata ctxR recA patchB 7).2.2).get? 1
        = some (Ev.storeUpdate recC1.objID)
    ∧ ((ModifyDirMetadata ctxR recA patchB 7).2.2).get? 2
        = some (Ev.storeUpdate recA.objID)
    ∧ Ev.storeUpdate recC1.objID ≠ Ev.storeUpdate recA.objID := by
  exact ⟨by decide, by decide, by decide, by decide⟩

/-- C2 (amended): in every modify-metadata call that succeeds and
performs a backend rename, the trace is exactly: the backend rename
first, then the subtree-propagation store updates, and the renamed
record's own store update strictly last — i.e. the state machine runs
`Validated → BackendRenamed → Propagated → RecordUpdated`, with the
record update after propagation. -/
theorem c2_amended_thm (c : Context) (olddoc : DirDoc) (patch : DocPatch)
    (now : Nat) (d : DirDoc) (a b : String)
    (hok : (ModifyDirMetadata c olddoc patch now).1 = .ok d)
    (hren : Ev.fsRename a b ∈ (ModifyDirMetadata c olddoc patch now).2.2) :
    ∃ mid, (ModifyDirMetadata c olddoc patch now).2.2
        = Ev.fsRename a b :: mid ++ [Ev.storeUpdate olddoc.objID]
      ∧ ∀ e ∈ mid, ∃ i, e = Ev.storeUpdate i := by
  unfold ModifyDirMetadata at hok hren ⊢
  rcases hmk : mkNewDirDoc olddoc patch now with e | nd
  · simp [hmk] at hok
  · simp only [hmk] at hok hren ⊢
    rcases hpc : parentCheckErr c olddoc nd with _ | e
    · simp only [hpc] at hok hren ⊢
      rcases hop : olddoc.Path c.db with e | oldpath
      · simp [hop] at hok
      · simp only [hop] at hok hren ⊢
        rcases hnp : nd.Path c.db with e | newpath
        · simp [hnp] at hok
        · simp only [hnp] at hok hren ⊢
          by_cases hpq : oldpath ≠ newpath
          · rw [if_pos hpq] at hok hren ⊢
            have hid0 := mkNewDirDoc_objID hmk
            have hid : ({ nd with fullpath := newpath } : DirDoc).objID
                = olddoc.objID := hid0
            rw [← hid]
            exact renameAndUpdate_ok_trace c oldpath newpath _ d a b hok hren
          · rw [if_neg hpq] at hren
            exfalso
            unfold updateOnly at hren
            cases hud : UpdateDoc c.db { nd with fullpath := newpath } with
            | error e => rw [hud] at hren; simp at hren
            | ok db1 => rw [hud] at hren; simp at hren
    · simp [hpc] at hok

/-- C2 witness: the concrete rename of `/a` to `/b` with one
descendant; the rename event is in the trace and the run succeeds. -/
theorem c2_amended_witness :
    ∃ mid, (ModifyDirMetadata ctxR recA patchB 7).2.2
        = Ev.fsRename "/a" "/b" :: mid ++ [Ev.storeUpdate recA.objID]
      ∧ ∀ e ∈ mid, ∃ i, e = Ev.storeUpdate i :=
  c2_amended_thm ctxR recA patchB 7 recB "/a" "/b" (by decide) (by decide)

/-! ## C6 — eviction removes the secondary-index binding -/

theorem find?_none_of_map_fresh {l : List (String × DirDoc)} {k : String}
    (h : k ∉ l.map Prod.fst) :
    l.find? (fun e => decide (e.1 = k)) = none := by
  rw [List.find?_eq_none]
  intro e he
  simp only [decide_eq_true_eq]
  intro hc
  exact h (hc ▸ List.mem_map_of_mem Prod.fst he)

theorem lruLookup_none_find? {lru : LRUCache} {k : String}
    (h : lruLookup lru k = none) :
    lru.entries.find? (fun e => decide (e.1 = k)) = none := by
  unfold lruLookup at h
  cases hf : lru.entries.find? (fun e => decide (e.1 = k)) with
  | none => rfl
  | some e => rw [hf] at h; simp at h

theorem lruErase_miss {lru : LRUCache} {k : String}
    (h : lruLookup lru k = none) : lruErase lru k = lru := by
  have hf := lruLookup_none_find? h
  have hall := List.find?_eq_none.mp hf
  unfold lruErase
  have : lru.entries.filter (fun e => !(decide (e.1 = k))) = lru.entries := by
    apply List.filter_eq_self.mpr
    intro e he
    simp only [Bool.not_eq_true']
    have := hall e he
    simpa using this
  rw [this]

theorem lruGet_miss {lru : LRUCache} {k : String}
    (h : lruLookup lru k = none) : lruGet lru k = (none, lru) := by
  unfold lruGet
  rw [h]

theorem mem_mapDelete_ne {m : List (String × String)} {k : String}
    {pr : String × String} (h : pr ∈ mapDelete m k) : pr ∈ m ∧ pr.1 ≠ k := by
  unfold mapDelete at h
  have h2 := List.mem_filter.mp h
  refine ⟨h2.1, ?_⟩
  have := h2.2
  simpa using this

theorem touchGeneric_shape (skey : DirDoc → String) (lru : LRUCache)
    (idx : List (String × String)) (doc : DirDoc) (init : List (String × DirDoc))
    (k0 : String) (v0 : DirDoc)
    (hmax : 0 < lru.maxEntries)
    (hfull : lru.entries.length = lru.maxEntries)
    (hfresh : lruLookup lru doc.objID = none)
    (hinit : lru.entries = init ++ [(k0, v0)]) :
    touchGeneric skey lru idx doc
      = ({ lru with entries := (doc.objID, doc) :: init },
         mapInsert (mapDelete idx (skey v0)) (skey doc) doc.objID) := by
  have hget := lruGet_miss hfresh
  have herase := lruErase_miss hfresh
  have hlen : ((doc.objID, doc) :: init).length = lru.maxEntries := by
    have : lru.entries.length = init.length + 1 := by simp [hinit]
    simp only [List.length_cons]
    omega
  have hshape : (doc.objID, doc) :: lru.entries
      = ((doc.objID, doc) :: init) ++ [(k0, v0)] := by
    simp [hinit]
  have hcond : 0 < lru.maxEntries
      ∧ lru.maxEntries < ((doc.objID, doc) :: lru.entries).length := by
    refine ⟨hmax, ?_⟩
    simp only [List.length_cons, hfull]
    omega
  have htake : ((doc.objID, doc) :: lru.entries).take lru.maxEntries
      = (doc.objID, doc) :: init := by
    rw [hshape, ← hlen, List.take_left]
  have hdrop : ((doc.objID, doc) :: lru.entries).drop lru.maxEntries
      = [(k0, v0)] := by
    rw [hshape, ← hlen, List.drop_left]
  unfold touchGeneric
  dsimp only
  rw [hfresh, hget]
  dsimp only
  unfold lruAdd
  rw [herase]
  rw [if_pos hcond, htake, hdrop]
  rfl

theorem touchGeneric_evict (skey : DirDoc → String) (lru : LRUCache)
    (idx : List (String × String)) (doc : DirDoc) (k0 : String) (v0 : DirDoc)
    (hnodup : (lru.entries.map Prod.fst).Nodup)
    (hinv : indexOK skey lru idx = true)
    (hmax : 0 < lru.maxEntries)
    (hfull : lru.entries.length = lru.maxEntries)
    (hfresh : lruLookup lru doc.objID = none)
    (hlast : lru.entries.getLast? = some (k0, v0)) :
    lruLookup (touchGeneric skey lru idx doc).1 k0 = none
    ∧ indexOK skey (touchGeneric skey lru idx doc).1
        (touchGeneric skey lru idx doc).2 = true
    ∧ mapLookup (touchGeneric skey lru idx doc).2 (skey v0) ≠ some k0 := by
  obtain ⟨init, hinit⟩ := getLast?_decomp _ _ hlast
  have hres := touchGeneric_shape skey lru idx doc init k0 v0 hmax hfull hfresh hinit
  -- the evicted entry's key is not the inserted key
  have hk0doc : k0 ≠ doc.objID := by
    intro hk
    have hf := lruLookup_none_find? hfresh
    have hall := List.find?_eq_none.mp hf
    have hmem : (k0, v0) ∈ lru.entries := by
      rw [hinit]
      exact List.mem_append.mpr (Or.inr (List.mem_singleton.mpr rfl))
    have := hall _ hmem
    simp only [decide_eq_true_eq] at this
    exact this hk
  -- the evicted entry's key is not among the keys kept from the front
  have hkinit : k0 ∉ init.map Prod.fst := by
    intro hmem
    have hn2 := hnodup
    rw [hinit, List.map_append] at hn2
    have hdisj := (List.nodup_append.mp hn2).2.2
    exact hdisj hmem (by simp)
  rw [hres]
  dsimp only
  refine ⟨?_, ?_, ?_⟩
  · -- the evicted key no longer resolves in the primary cache
    unfold lruLookup
    dsimp only
    rw [List.find?_cons]
    have hhead : (decide (doc.objID = k0)) = false := by
      simp only [decide_eq_false_iff_not]
      exact fun hc => hk0doc hc.symm
    rw [hhead]
    simp only [Bool.false_eq_true, if_false]
    rw [find?_none_of_map_fresh hkinit]
    rfl
  · -- every remaining binding resolves to a live record with that key
    unfold indexOK
    rw [List.all_eq_true]
    intro pr hpr
    unfold mapInsert at hpr
    rcases List.mem_cons.mp hpr with hhd | htl
    · -- the freshly inserted binding resolves to the inserted record
      subst hhd
      unfold bindingOKb lruLookup
      dsimp only
      rw [List.find?_cons]
      have : (decide (doc.objID = doc.objID)) = true := by simp
      rw [this]
      simp
    · -- an old binding that survived both deletions
      obtain ⟨htl1, hne_dockey⟩ := mem_mapDelete_ne htl
      obtain ⟨hidx, hne_v0key⟩ := mem_mapDelete_ne htl1
      have hbk := List.all_eq_true.mp hinv pr hidx
      unfold bindingOKb at hbk
      cases hlk : lruLookup lru pr.2 with
      | none => rw [hlk] at hbk; cases hbk
      | some dold =>
        rw [hlk] at hbk
        have hkey : skey dold = pr.1 := by simpa using hbk
        have hpr2 : pr.2 ≠ doc.objID := by
          intro hc
          rw [hc, hfresh] at hlk
          cases hlk
        -- locate the old record in the cache list
        have hfind : lru.entries.find? (fun e => decide (e.1 = pr.2))
            = some (pr.2, dold) := by
          unfold lruLookup at hlk
          cases hfi : lru.entries.find? (fun e => decide (e.1 = pr.2)) with
          | none => rw [hfi] at hlk; cases hlk
          | some e0 =>
            rw [hfi] at hlk
            have he0 : e0.2 = dold := by simpa using hlk
            have hpred := List.find?_some hfi
            simp only [decide_eq_true_eq] at hpred
            obtain ⟨a, b⟩ := e0
            simp only at hpred he0
            rw [hpred, he0]
        -- it was found among the kept front entries, not in the evicted tail
        have hin_init : init.find? (fun e => decide (e.1 = pr.2))
            = some (pr.2, dold) := by
          rw [hinit, find?_append_or] at hfind
          cases hfi2 : init.find? (fun e => decide (e.1 = pr.2)) with
          | some e1 => rw [hfi2] at hfind; simpa using hfind
          | none =>
            rw [hfi2] at hfind
            exfalso
            have hmem : (pr.2, dold) ∈ [(k0, v0)] :=
              List.mem_of_find?_eq_some (p := fun e => decide (e.1 = pr.2))
                (by simpa using hfind)
            have h2 : pr.2 = k0 ∧ dold = v0 := by simpa using hmem
            rw [h2.2] at hkey
            exact hne_v0key hkey.symm
        unfold bindingOKb lruLookup
        dsimp only
        rw [List.find?_cons]
        have hhead : (decide (doc.objID = pr.2)) = false := by
          simp only [decide_eq_false_iff_not]
          exact fun hc => hpr2 hc.symm
        rw [hhead]
        simp only [Bool.false_eq_true, if_false, hin_init]
        simpa using hkey
  · -- the evicted record's secondary key no longer binds to its id
    unfold mapLookup mapInsert
    rw [List.find?_cons]
    by_cases hsk : skey doc = skey v0
    · have : (decide ((skey doc, doc.objID).1 = skey v0)) = true := by
        simpa using hsk
      rw [this]
      simp only [Option.map_some]
      intro hc
      have : doc.objID = k0 := by simpa using hc
      exact hk0doc this.symm
    · have : (decide ((skey doc, doc.objID).1 = skey v0)) = false := by
        simpa using hsk
      rw [this]
      simp only [Bool.false_eq_true, if_false]
      have hnone : (mapDelete (mapDelete idx (skey v0)) (skey doc)).find?
          (fun e => decide (e.1 = skey v0)) = none := by
        rw [List.find?_eq_none]
        intro e he
        have h1 := (mem_mapDelete_ne he).1
        have h2 := (mem_mapDelete_ne h1).2
        simpa using h2
      rw [hnone]
      simp

/-- C6: when an insertion into a full bounded LRU cache evicts the
least-recently-used entry (the last entry of the recency list), the
evicted entry is no longer resolvable by id, the eviction callback has
removed its secondary-index binding — its old key no longer binds to
its id — and every surviving binding still resolves through the
primary cache to a live record carrying that key, so a lookup by the
evicted entry's old key (FullPath for directories, the
(ParentID, Name) composite for files) never resolves to a stale id. -/
theorem c6_confirmed (fc : LocalCache) (dDoc fDoc : DirDoc)
    (kd : String) (vd : DirDoc) (kf : String) (vf : DirDoc)
    (hdnodup : (fc.lrud.entries.map Prod.fst).Nodup)
    (hdinv : indexOK dirKey fc.lrud fc.pthd = true)
    (hdmax : 0 < fc.lrud.maxEntries)
    (hdfull : fc.lrud.entries.length = fc.lrud.maxEntries)
    (hdfresh : lruLookup fc.lrud dDoc.objID = none)
    (hdlast : fc.lrud.entries.getLast? = some (kd, vd))
    (hfnodup : (fc.lruf.entries.map Prod.fst).Nodup)
    (hfinv : indexOK fileKey fc.lruf fc.pthf = true)
    (hfmax : 0 < fc.lruf.maxEntries)
    (hffull : fc.lruf.entries.length = fc.lruf.maxEntries)
    (hffresh : lruLookup fc.lruf fDoc.objID = none)
    (hflast : fc.lruf.entries.getLast? = some (kf, vf)) :
    (lruLookup (fc.touchDir dDoc).lrud kd = none
      ∧ indexOK dirKey (fc.touchDir dDoc).lrud (fc.touchDir dDoc).pthd = true
      ∧ mapLookup (fc.touchDir dDoc).pthd (dirKey vd) ≠ some kd)
    ∧ (lruLookup (fc.touchFile fDoc).lruf kf = none
      ∧ indexOK fileKey (fc.touchFile fDoc).lruf (fc.touchFile fDoc).pthf = true
      ∧ mapLookup (fc.touchFile fDoc).pthf (fileKey vf) ≠ some kf) :=
  ⟨touchGeneric_evict dirKey fc.lrud fc.pthd dDoc kd vd
      hdnodup hdinv hdmax hdfull hdfresh hdlast,
   touchGeneric_evict fileKey fc.lruf fc.pthf fDoc kf vf
      hfnodup hfinv hfmax hffull hffresh hflast⟩

/-- C6 witness: a capacity-one directory cache holding `/a` and a
capacity-one file cache holding one file, each with a sound secondary
index; touching a fresh record into each evicts the resident entry and
cleans its binding. -/
theorem c6_witness :
    (lruLookup (fullCache.touchDir recC1).lrud "d0" = none
      ∧ indexOK dirKey (fullCache.touchDir recC1).lrud
          (fullCache.touchDir recC1).pthd = true
      ∧ mapLookup (fullCache.touchDir recC1).pthd (dirKey recA) ≠ some "d0")
    ∧ (lruLookup (fullCache.touchFile fileRec2).lruf "f1" = none
      ∧ indexOK fileKey (fullCache.touchFile fileRec2).lruf
          (fullCache.touchFile fileRec2).pthf = true
      ∧ mapLookup (fullCache.touchFile fileRec2).pthf (fileKey fileRec) ≠ some "f1") :=
  c6_confirmed fullCache recC1 fileRec2 "d0" recA "f1" fileRec
    (by decide) (by decide) (by decide) (by decide) (by decide) (by decide)
    (by decide) (by decide) (by decide) (by decide) (by decide) (by decide)
